import Mathlib

/-
Verification development for the AstroLens solar-flare dataset pipeline.

The pipeline lives in three Python modules:
  * src/data/combine_flare_catalogues.py : fixed-width NOAA catalogue parsing,
    catalogue combination and exact-duplicate removal;
  * src/data/process_flux_data.py : flux series normalisation (resample to a
    one-minute grid, clip + log10 stabilisation, dropna);
  * src/data/create_features_labels.py : catalogue loading/filtering,
    forward-window label assignment and rolling feature construction.

Conventions of the shallow embedding:
  * text lines are List Char, sliced positionally exactly as Python slices;
  * datetimes are linearised to integer minutes in the proleptic Gregorian
    calendar (the calendar Python datetime uses), so datetime equality and
    order coincide with equality and order of the encoding;
  * pandas DataFrames of the two-column (datetime, class) shape are
    List (Int x String) rows; DataFrame operations (drop_duplicates,
    sort_values, filter masks) are modelled element by element;
  * floating-point flux values are modelled as rationals; log10 itself is
    order-preserving and total on positive arguments, so the pipeline carries
    the (strictly positive) clipped argument that the source passes to
    np.log10 - presence or absence of a row, which is what the claims about
    gaps and stabilisation concern, is unchanged by that;
  * Python digit tests are modelled for ASCII digits and Python whitespace
    for the ASCII whitespace characters (the catalogue sources are ASCII;
    non-breaking spaces, which do occur, are modelled explicitly).
-/

/-! ## Generic list helpers modelling pandas primitives -/

/-- Worker for duplicate removal keeping the first occurrence of every key,
the semantics of pandas drop_duplicates / index.duplicated with keep="first".
The seen accumulator holds the keys already emitted. -/
def dedupByGo {α β : Type} [DecidableEq β] (key : α → β) (seen : List β) : List α → List α
  | [] => []
  | x :: xs =>
    if key x ∈ seen then dedupByGo key seen xs
    else x :: dedupByGo key (key x :: seen) xs

/-- Keep the first row for every distinct key value, in input order. -/
def dedupBy {α β : Type} [DecidableEq β] (key : α → β) (l : List α) : List α :=
  dedupByGo key [] l

/-- pandas DataFrame.drop_duplicates() with no subset argument: a row is
dropped exactly when an identical full row appeared earlier. -/
def dropDuplicates {α : Type} [DecidableEq α] (l : List α) : List α :=
  dedupBy id l

/-- Sort rows by their first component (pandas sort_values / sort_index on the
datetime key; the claims under study depend only on the resulting multiset). -/
def sortByFst {α β : Type} [LinearOrder α] (l : List (α × β)) : List (α × β) :=
  @List.insertionSort (α × β) (fun a b => a.1 ≤ b.1)
    (fun a b => inferInstanceAs (Decidable (a.1 ≤ b.1))) l

/-! ## process_flux_data.py : merge_and_transform_chunks -/

/-- pandas Series.clip(lower := L) on one value: raise the value to L when it
lies below L. -/
def clipLower (v lower : ℚ) : ℚ :=
  if v < lower then lower else v

/-- The stabilisation floor 1e-9 from flux_df["flux"].clip(lower=1e-9). -/
def epsFlux : ℚ := 1 / 1000000000

/-- Arithmetic mean of a list of rationals (pandas mean aggregation). -/
def listMean (l : List ℚ) : ℚ :=
  l.sum / (l.length : ℚ)

/-- Raw samples falling into one 1-minute grid tick: timestamps are integer
seconds and resample("1min") buckets them by floor division by 60. -/
def bucket (l : List (Nat × ℚ)) (t : Nat) : List (Nat × ℚ) :=
  l.filter (fun s => s.1 / 60 == t)

/-- Mean aggregation of one resample bucket; an empty bucket yields NaN,
modelled as none. -/
def bucketMean (l : List (Nat × ℚ)) (t : Nat) : Option ℚ :=
  if (bucket l t).isEmpty then none
  else some (listMean ((bucket l t).map Prod.snd))

/-- Smallest occupied grid tick of a sample list (d seeds the fold with the
tick of a known sample, so on nonempty input it is the minimum tick). -/
def tickLo (l : List (Nat × ℚ)) (d : Nat) : Nat :=
  (l.map (fun p => p.1 / 60)).foldr min d

/-- Largest occupied grid tick, seeded like tickLo. -/
def tickHi (l : List (Nat × ℚ)) (d : Nat) : Nat :=
  (l.map (fun p => p.1 / 60)).foldr max d

/-- flux_df.resample("1min").mean(): a contiguous grid of 1-minute ticks from
the smallest to the largest occupied tick, each tick carrying the bucket mean or
NaN (none) when no sample falls in it. -/
def resample1min : List (Nat × ℚ) → List (Nat × Option ℚ)
  | [] => []
  | s :: rest =>
    (List.range (tickHi (s :: rest) (s.1 / 60) + 1 - tickLo (s :: rest) (s.1 / 60))).map
      (fun k => (tickLo (s :: rest) (s.1 / 60) + k,
        bucketMean (s :: rest) (tickLo (s :: rest) (s.1 / 60) + k)))

/-- Core of merge_and_transform_chunks: drop duplicate index entries keeping
the first, sort by index, resample to 1-minute means, stabilise
(np.log10 of clip(lower=1e-9) - the strictly positive log argument is carried,
see the header note), and dropna. -/
def merge_and_transform_chunks (raw : List (Nat × ℚ)) : List (Nat × ℚ) :=
  (((resample1min (sortByFst (dedupBy Prod.fst raw))).map
      (fun p => (p.1, p.2.map (fun v => clipLower v epsFlux)))).filterMap
    (fun p => p.2.map (fun v => (p.1, v))))

/-- The grid ticks that survive into the saved flux series. -/
def processFluxTicks (raw : List (Nat × ℚ)) : List Nat :=
  (merge_and_transform_chunks raw).map Prod.fst

/-! ## combine_flare_catalogues.py : the fixed-width NOAA parser -/

/-- The non-breaking space replacement at the top of the per-line loop:
line.replace(CHR(160), " "). -/
def replaceNBSP (l : List Char) : List Char :=
  l.map (fun c => if c = '\xa0' then ' ' else c)

/-- ASCII whitespace recognised by Python str.strip() and by the regex
class backslash-s (the sources are ASCII once NBSP is replaced). -/
def isPySpace (c : Char) : Bool :=
  c = ' ' || c = '\t' || c = '\n' || c = '\r' || c = '\x0b' || c = '\x0c'

/-- Python str.strip(): remove leading and trailing whitespace. -/
def pyStrip (l : List Char) : List Char :=
  ((l.dropWhile isPySpace).reverse.dropWhile isPySpace).reverse

/-- Python slice line[a:b] for a ≤ b. -/
def listSlice (a b : Nat) (l : List Char) : List Char :=
  (l.drop a).take (b - a)

/-- Python str.isdigit() restricted to ASCII: nonempty and all digits. -/
def isDigitStr (l : List Char) : Bool :=
  !l.isEmpty && l.all Char.isDigit

/-- Decimal value of an ASCII digit string (Python int()). -/
def listToNat (l : List Char) : Nat :=
  l.foldl (fun acc c => 10 * acc + (c.toNat - 48)) 0

/-- The classification letters accepted by the parser. -/
def abcmx : List Char := ['A', 'B', 'C', 'M', 'X']

/-- One attempted match of the classification pattern
letter, optional whitespace, digits, optional dot, digits
at a fixed position: c is the head character, rest the characters after it.
Greedy semantics of the Python regex: maximal whitespace run, then at least
one digit, then a dot with a maximal following digit run when present. -/
def classMatchAt (c : Char) (rest : List Char) : Option (List Char) :=
  if abcmx.contains c then
    let ws := rest.takeWhile isPySpace
    let r1 := rest.dropWhile isPySpace
    let ds := r1.takeWhile Char.isDigit
    if ds.isEmpty then none
    else
      match r1.dropWhile Char.isDigit with
      | '.' :: r3 => some (c :: (ws ++ ds ++ '.' :: r3.takeWhile Char.isDigit))
      | _ => some (c :: (ws ++ ds))
  else none

/-- re.search of the classification pattern: leftmost match wins. -/
def searchClass : List Char → Option (List Char)
  | [] => none
  | c :: rest =>
    match classMatchAt c rest with
    | some m => some m
    | none => searchClass rest

/-- First character of the candidate classification lies in ABCMX
(the check classification[0] in "ABCMX"). -/
def classHeadOk (l : List Char) : Bool :=
  match l with
  | [] => false
  | c :: _ => abcmx.contains c

/-- Anchored validation re.match of letter, digits, optional dot, digits
against the whole cleaned classification string (which str.strip() has freed
of trailing newlines, so the end anchor is plain end of string). -/
def validClassFormat (l : List Char) : Bool :=
  match l with
  | [] => false
  | c :: rest =>
    abcmx.contains c &&
      (let ds := rest.takeWhile Char.isDigit
       !ds.isEmpty &&
        (match rest.dropWhile Char.isDigit with
         | [] => true
         | '.' :: r2 => r2.all Char.isDigit
         | _ => false))

/-- One parsed flare record. The peak datetime that the source builds with
datetime(file_year,1,1) + timedelta(days = ddd-1) at hour:minute is encoded
by the four numeric fields; no day-of-year range check exists in the source,
out-of-range values simply shift the date arithmetically. -/
structure FlareEvent where
  fileYear : Nat
  dayOfYear : Nat
  hour : Nat
  minute : Nat
  cls : List Char
deriving DecidableEq, Repr

/-- The per-line body of parse_standard_noaa_txt after NBSP replacement.
Mirrors the source order: prefix/length filter, YY and DDD slices with
isdigit checks, peak-time digit extraction with the exactly-4-digits check,
the datetime construction whose ValueError on hour > 23 or minute > 59 is
caught and skips the record, then the classification regex search and its
anchored re-validation. The YY field is digit-checked but otherwise unused,
as in the source; start and end times are sliced but never validated. -/
def parseNoaaCore (fileYear : Nat) (line : List Char) : Option FlareEvent :=
  if !(List.isPrefixOf "31777".toList (pyStrip line)) || line.length < 27 then none
  else
    let yyStr := pyStrip (listSlice 5 7 line)
    let dddStr := pyStrip (listSlice 7 10 line)
    if !(isDigitStr yyStr) || !(isDigitStr dddStr) then none
    else
      let peakDigits := (pyStrip (listSlice 18 22 line)).filter Char.isDigit
      if peakDigits.length ≠ 4 then none
      else
        let peakHour := listToNat (peakDigits.take 2)
        let peakMinute := listToNat (peakDigits.drop 2)
        if 23 < peakHour || 59 < peakMinute then none
        else
          match searchClass (line.drop 27) with
          | none => none
          | some m =>
            let cls := pyStrip (m.filter (fun c => c != ' '))
            if classHeadOk cls && validClassFormat cls then
              some { fileYear := fileYear, dayOfYear := listToNat dddStr,
                     hour := peakHour, minute := peakMinute, cls := cls }
            else none

/-- Full treatment of one raw line: NBSP normalisation first, then the core. -/
def parse_standard_noaa_line (fileYear : Nat) (line : List Char) : Option FlareEvent :=
  parseNoaaCore fileYear (replaceNBSP line)

/-- One NOAA source file: the year extracted from its filename (none when the
filename regex finds no year, in which case the file is skipped) and its
lines. The skip list filtering of load_noaa_all is filename-based and happens
before this point, so the file list fed to the loader is post-skip. -/
structure NoaaFile where
  yearFromName : Option Nat
  lines : List (List Char)

/-- parse_standard_noaa_txt: parse every line of one file, dropping lines that
produce no event and continuing with the rest. -/
def parse_standard_noaa_txt (f : NoaaFile) : List FlareEvent :=
  match f.yearFromName with
  | none => []
  | some y => f.lines.filterMap (parse_standard_noaa_line y)

/-- Leap days among the first n years of the proleptic Gregorian calendar. -/
def leapDays (n : Nat) : Nat :=
  n / 4 - n / 100 + n / 400

/-- Days strictly before January 1 of year y (proleptic Gregorian, y ≥ 1). -/
def daysBeforeYear (y : Nat) : Nat :=
  365 * (y - 1) + leapDays (y - 1)

/-- The peak datetime of an event linearised to minutes: datetime equality and
order coincide with equality and order of this number. -/
def absMinuteOfEvent (e : FlareEvent) : Int :=
  1440 * ((daysBeforeYear e.fileYear : Int) + (e.dayOfYear : Int) - 1)
    + 60 * (e.hour : Int) + (e.minute : Int)

/-- The (datetime, class) DataFrame produced from one NOAA file. -/
def fileRows (f : NoaaFile) : List (Int × String) :=
  (parse_standard_noaa_txt f).map (fun e => (absMinuteOfEvent e, String.mk e.cls))

/-- load_noaa_all: an empty file list short-circuits to an empty frame; files
with no parsed events are not appended; when no file contributed events a
ValueError is raised, modelled as the error branch; otherwise the frames are
concatenated, exact duplicates dropped and the result sorted by datetime. -/
def load_noaa_all (files : List NoaaFile) : Except String (List (Int × String)) :=
  if files.isEmpty then Except.ok []
  else if ((files.map fileRows).filter (fun d => !d.isEmpty)).isEmpty then
    Except.error "No valid NOAA flare events parsed."
  else
    Except.ok (sortByFst (dropDuplicates
      (((files.map fileRows).filter (fun d => !d.isEmpty)).flatten)))

/-- The NOAA frame as main sees it: the loader result, with a loader failure
caught (try/except) and replaced by an empty frame. -/
def noaaFrame (files : List NoaaFile) : List (Int × String) :=
  match load_noaa_all files with
  | Except.ok l => l
  | Except.error _ => []

/-- main of combine_flare_catalogues.py: when both the NOAA and the HEK frames
are empty the run diagnoses no flare data and produces no output (the error
branch); otherwise the concatenated frames are exact-deduplicated, sorted and
saved. -/
def combineMain (files : List NoaaFile) (hekRows : List (Int × String)) :
    Except String (List (Int × String)) :=
  if (noaaFrame files).isEmpty && hekRows.isEmpty then Except.error "No flare data loaded."
  else Except.ok (sortByFst (dropDuplicates (noaaFrame files ++ hekRows)))

/-! ## create_features_labels.py : catalogue loading, labels, features -/

/-- pandas .astype(str).str[0]: the first character of the class token as a
one-character string (an empty token yields the empty string, which the
following isin filter drops, matching the NaN behaviour of the source). -/
def letterOf (s : String) : String :=
  match s.toList with
  | [] => ""
  | c :: _ => String.mk [c]

/-- load_flare_catalogue on already-tokenised (datetime, class) rows: take the
class letter, keep only C, M and X, drop duplicate (datetime, class) pairs
keeping the first, and sort by the datetime index. -/
def load_flare_catalogue (rows : List (Int × String)) : List (Int × String) :=
  sortByFst (dropDuplicates
    ((rows.map (fun r => (r.1, letterOf r.2))).filter
      (fun r => r.2 == "C" || r.2 == "M" || r.2 == "X")))

/-- The window filter of assign_labels_to_flux: events with timestamp strictly
after t and at or before t + window (both comparisons exactly as in the
source mask). Timestamps and the window are in minutes. -/
def futureFlares (flares : List (Int × String)) (t window : Int) : List (Int × String) :=
  flares.filter (fun e => decide (t < e.1 ∧ e.1 ≤ t + window))

/-- Label for one flux timestamp: the class-membership cascade of the source
over the class values of the windowed events, emitting the strings X, M, C or
No Flare. -/
def labelOfTick (flares : List (Int × String)) (window t : Int) : String :=
  if "X" ∈ (futureFlares flares t window).map Prod.snd then "X"
  else if "M" ∈ (futureFlares flares t window).map Prod.snd then "M"
  else if "C" ∈ (futureFlares flares t window).map Prod.snd then "C"
  else "No Flare"

/-- assign_labels_to_flux: one label per flux timestamp; the look-ahead window
is timedelta(hours = predictionWindowHours), i.e. 60 * h minutes. -/
def assign_labels_to_flux (fluxIndex : List Int) (flares : List (Int × String))
    (predictionWindowHours : Nat) : List String :=
  let window : Int := 60 * (predictionWindowHours : Int)
  fluxIndex.map (fun t => labelOfTick flares window t)

/-- The rolling mean of create_features: df[col].rolling(win, min_periods=1)
.mean() - position i averages the last min(i+1, win) values, and min_periods=1
makes the value defined even where the look-back window is not yet full. -/
def rollingMeanMP1 (win : Nat) (xs : List ℚ) : List ℚ :=
  (List.range xs.length).map (fun i => listMean ((xs.take (i + 1)).drop (i + 1 - win)))

/-! ## Spec-side definitions (for refinement claims)

The intensity rank and the windowed maximum below follow the words of the
specification, to be compared with the source-side definitions above. -/

/-- Modelled from the spec: the IntensityRank total order A=B=1 < C=2 < M=3
< X=4 over class letters, extended by 0 off the letter set. -/
def specIntensityRank (cls : String) : Nat :=
  if cls = "A" ∨ cls = "B" then 1
  else if cls = "C" then 2
  else if cls = "M" then 3
  else if cls = "X" then 4
  else 0

/-- The intensity rank denoted by an emitted label string: the spec reading of
the label values X, M, C and No Flare (no qualifying event). -/
def labelRank (label : String) : Nat :=
  if label = "X" then 4
  else if label = "M" then 3
  else if label = "C" then 2
  else 0

/-- Modelled from the spec: max intensity rank over all events with timestamp
in the half-open interval (t, t + horizon], 0 when the interval holds none. -/
def specMaxRankInWindow (flares : List (Int × String)) (t horizon : Int) : Nat :=
  ((futureFlares flares t horizon).map (fun e => specIntensityRank e.2)).foldr max 0

/-! ## Helper lemmas about duplicate removal and sorting -/

theorem dedupByGo_subset {α β : Type} [DecidableEq β] (key : α → β) :
    ∀ (seen : List β) (l : List α) (x : α), x ∈ dedupByGo key seen l → x ∈ l := by
  intro seen l
  induction l generalizing seen with
  | nil => intro x hx; simp [dedupByGo] at hx
  | cons a as ih =>
    intro x hx
    by_cases h : key a ∈ seen
    · simp only [dedupByGo, if_pos h] at hx
      exact List.mem_cons_of_mem a (ih seen x hx)
    · simp only [dedupByGo, if_neg h, List.mem_cons] at hx
      rcases hx with rfl | hx
      · exact List.mem_cons_self _ _
      · exact List.mem_cons_of_mem a (ih _ x hx)

theorem dedupByGo_exists_key {α β : Type} [DecidableEq β] (key : α → β) :
    ∀ (seen : List β) (l : List α) (x : α), x ∈ l → key x ∉ seen →
      ∃ y ∈ dedupByGo key seen l, key y = key x := by
  intro seen l
  induction l generalizing seen with
  | nil => intro x hx; simp at hx
  | cons a as ih =>
    intro x hx hns
    by_cases h : key a ∈ seen
    · simp only [dedupByGo, if_pos h]
      rcases List.mem_cons.mp hx with rfl | hx
      · exact absurd h hns
      · exact ih seen x hx hns
    · simp only [dedupByGo, if_neg h]
      rcases List.mem_cons.mp hx with rfl | hx
      · exact ⟨_, List.mem_cons_self _ _, rfl⟩
      · by_cases hk : key x = key a
        · exact ⟨a, List.mem_cons_self a _, hk.symm⟩
        · have hx2 : key x ∉ key a :: seen := by
            simp only [List.mem_cons]
            push_neg
            exact ⟨hk, hns⟩
          obtain ⟨y, hy, hky⟩ := ih (key a :: seen) x hx hx2
          exact ⟨y, List.mem_cons_of_mem a hy, hky⟩

theorem dedupByGo_nodup_keys {α β : Type} [DecidableEq β] (key : α → β) :
    ∀ (seen : List β) (l : List α),
      ((dedupByGo key seen l).map key).Nodup ∧
        ∀ k ∈ (dedupByGo key seen l).map key, k ∉ seen := by
  intro seen l
  induction l generalizing seen with
  | nil => simp [dedupByGo]
  | cons a as ih =>
    by_cases h : key a ∈ seen
    · simpa only [dedupByGo, if_pos h] using ih seen
    · simp only [dedupByGo, if_neg h, List.map_cons, List.nodup_cons, List.mem_cons]
      obtain ⟨hnd, hnotin⟩ := ih (key a :: seen)
      refine ⟨⟨?_, hnd⟩, ?_⟩
      · intro hmem
        exact hnotin _ hmem (List.mem_cons_self _ _)
      · intro k hk
        rcases hk with rfl | hk
        · exact h
        · intro hks
          exact hnotin k hk (List.mem_cons_of_mem _ hks)

theorem dedupByGo_sublist {α β : Type} [DecidableEq β] (key : α → β) :
    ∀ (seen : List β) (l : List α), (dedupByGo key seen l).Sublist l := by
  intro seen l
  induction l generalizing seen with
  | nil => simp [dedupByGo]
  | cons a as ih =>
    by_cases h : key a ∈ seen
    · simp only [dedupByGo, if_pos h]
      exact (ih seen).trans (List.sublist_cons_self a as)
    · simp only [dedupByGo, if_neg h]
      exact (ih (key a :: seen)).cons₂ a

theorem dedupByGo_eq_nil_iff {α β : Type} [DecidableEq β] (key : α → β) :
    ∀ (seen : List β) (l : List α),
      dedupByGo key seen l = [] ↔ ∀ x ∈ l, key x ∈ seen := by
  intro seen l
  induction l generalizing seen with
  | nil => simp [dedupByGo]
  | cons a as ih =>
    by_cases h : key a ∈ seen
    · simp only [dedupByGo, if_pos h, ih seen, List.mem_cons]
      constructor
      · intro hall x hx
        rcases hx with rfl | hx
        · exact h
        · exact hall x hx
      · intro hall x hx
        exact hall x (Or.inr hx)
    · simp only [dedupByGo, if_neg h]
      constructor
      · intro hx; exact absurd hx (List.cons_ne_nil _ _)
      · intro hall
        exact absurd (hall a (List.mem_cons_self a as)) h

theorem dedupBy_eq_nil_iff {α β : Type} [DecidableEq β] (key : α → β) (l : List α) :
    dedupBy key l = [] ↔ l = [] := by
  unfold dedupBy
  rw [dedupByGo_eq_nil_iff]
  constructor
  · intro hall
    cases l with
    | nil => rfl
    | cons a as => exact absurd (hall a (List.mem_cons_self a as)) (by simp)
  · intro h; subst h; simp

theorem sortByFst_perm {α β : Type} [LinearOrder α] (l : List (α × β)) :
    (sortByFst l).Perm l :=
  List.perm_insertionSort _ l

theorem mem_sortByFst {α β : Type} [LinearOrder α] (l : List (α × β)) (x : α × β) :
    x ∈ sortByFst l ↔ x ∈ l :=
  (sortByFst_perm l).mem_iff

theorem sortByFst_eq_nil_iff {α β : Type} [LinearOrder α] (l : List (α × β)) :
    sortByFst l = [] ↔ l = [] := by
  constructor
  · intro h
    have := (sortByFst_perm l).length_eq
    rw [h] at this
    exact List.eq_nil_of_length_eq_zero this.symm
  · intro h; subst h; rfl

/-! ## Claim C2 : deduplication -/

/-- Claim C2 counterexample: two events at the same timestamp with classes
C1.0 and X2.0 both survive deduplication (the combine step removes only
identical full rows), so there is not exactly one survivor per distinct
timestamp and no intensity tie-break picks X2.0. -/
theorem claim_c2_counterexample :
    dropDuplicates [((0 : Int), "C1.0"), ((0 : Int), "X2.0")]
        = [((0 : Int), "C1.0"), ((0 : Int), "X2.0")] ∧
      ¬ ((dropDuplicates [((0 : Int), "C1.0"), ((0 : Int), "X2.0")]).map Prod.fst).Nodup := by
  constructor
  · rfl
  · decide

/-- Claim C2 amended: deduplication removes exactly the later copies of
identical (timestamp, class) rows - afterwards no row occurs twice, every
input row still occurs, and surviving rows keep their input order (so the
first occurrence survives); events sharing a timestamp with different classes
all survive, and no intensity tie-break exists. -/
theorem claim_c2_amended : ∀ (l : List (Int × String)),
    (dropDuplicates l).Nodup ∧
      (∀ x, x ∈ dropDuplicates l ↔ x ∈ l) ∧
      (dropDuplicates l).Sublist l := by
  intro l
  refine ⟨?_, ?_, ?_⟩
  · have h := (dedupByGo_nodup_keys (id : (Int × String) → (Int × String)) [] l).1
    rwa [List.map_id] at h
  · intro x
    constructor
    · exact dedupByGo_subset id [] l x
    · intro hx
      obtain ⟨y, hy, hxy⟩ := dedupByGo_exists_key id [] l x hx (by simp)
      simpa [show y = x from hxy] using hy
  · exact dedupByGo_sublist id [] l

/-! ## Claim C5 : numeric stabilisation of the flux -/

/-- Claim C5: the stabilised flux is np.log10 applied to clip(lower = 1e-9) of
the value, which equals max(value, 1e-9); for every value, zero and negative
values included, that argument is strictly positive, so the logarithm is never
taken of a non-positive number. -/
theorem claim_c5_stabilized_log_argument : ∀ v : ℚ,
    clipLower v epsFlux = max v epsFlux ∧ 0 < clipLower v epsFlux := by
  intro v
  have heps : (0 : ℚ) < epsFlux := by norm_num [epsFlux]
  constructor
  · unfold clipLower
    rcases lt_or_le v epsFlux with h | h
    · rw [if_pos h, max_eq_right h.le]
    · rw [if_neg (not_lt.mpr h), max_eq_left h]
  · unfold clipLower
    split
    · exact heps
    · next h => exact lt_of_lt_of_le heps (not_lt.mp h)

/-! ## Claim C8 : non-breaking-space normalisation -/

theorem replaceNBSP_idem (l : List Char) :
    replaceNBSP (replaceNBSP l) = replaceNBSP l := by
  unfold replaceNBSP
  rw [List.map_map]
  apply List.map_congr_left
  intro a _
  by_cases h : a = '\xa0'
  · simp [Function.comp, h]
  · simp [Function.comp, h]

/-- Claim C8: the fixed-width parser gives the same result on a raw line and
on the same line with every non-breaking space replaced by an ordinary space,
because the replacement is the first step of the parse and is idempotent. -/
theorem claim_c8_nbsp_normalisation : ∀ (fileYear : Nat) (line : List Char),
    parse_standard_noaa_line fileYear line
      = parse_standard_noaa_line fileYear (replaceNBSP line) := by
  intro fy line
  unfold parse_standard_noaa_line
  rw [replaceNBSP_idem]

/-! ## Claim C9 : rolling mean over a constant series -/

theorem listMean_replicate (k : Nat) (v : ℚ) (hk : k ≠ 0) :
    listMean (List.replicate k v) = v := by
  unfold listMean
  rw [List.sum_replicate, List.length_replicate, nsmul_eq_mul]
  have hk0 : (k : ℚ) ≠ 0 := Nat.cast_ne_zero.mpr hk
  exact mul_div_cancel_left₀ v hk0

/-- Claim C9: over a constant series of value v, the rolling mean equals v at
every position - in particular wherever a full look-back window exists - and
because the source configures min_periods = 1, partially filled windows at the
start of the series also yield a (defined) value, namely v again. -/
theorem claim_c9_rolling_mean_constant : ∀ (win n : Nat) (v : ℚ), 0 < win →
    rollingMeanMP1 win (List.replicate n v) = List.replicate n v := by
  intro win n v hwin
  unfold rollingMeanMP1
  rw [List.length_replicate, List.eq_replicate_iff]
  constructor
  · simp
  · intro b hb
    rw [List.mem_map] at hb
    obtain ⟨i, hi, rfl⟩ := hb
    rw [List.mem_range] at hi
    rw [List.take_replicate, List.drop_replicate]
    have hmin : (i + 1) ⊓ n = i + 1 := min_eq_left (by omega)
    rw [hmin]
    exact listMean_replicate _ v (by omega)

/-- Claim C9 witness: a concrete constant series under a concrete window. -/
theorem claim_c9_witness :
    rollingMeanMP1 3 (List.replicate 5 (7 : ℚ)) = List.replicate 5 (7 : ℚ) :=
  claim_c9_rolling_mean_constant 3 5 7 (by decide)

/-! ## Helper lemmas about the label engine -/

theorem mem_futureFlares (flares : List (Int × String)) (t w : Int) (e : Int × String) :
    e ∈ futureFlares flares t w ↔ e ∈ flares ∧ t < e.1 ∧ e.1 ≤ t + w := by
  unfold futureFlares
  rw [List.mem_filter]
  simp only [decide_eq_true_eq]

theorem load_flare_catalogue_cls (rows : List (Int × String)) :
    ∀ e ∈ load_flare_catalogue rows, e.2 = "C" ∨ e.2 = "M" ∨ e.2 = "X" := by
  intro e he
  unfold load_flare_catalogue at he
  rw [mem_sortByFst] at he
  have he2 := dedupByGo_subset id [] _ e he
  rw [List.mem_filter] at he2
  have h := he2.2
  simp only [Bool.or_eq_true, beq_iff_eq] at h
  tauto

theorem specIntensityRank_le_four (s : String) : specIntensityRank s ≤ 4 := by
  unfold specIntensityRank
  split_ifs <;> omega

theorem foldr_max_le (l : List Nat) (k : Nat) (hub : ∀ x ∈ l, x ≤ k) :
    l.foldr max 0 ≤ k := by
  induction l with
  | nil => simp
  | cons a as ih =>
    simp only [List.foldr_cons, max_le_iff]
    exact ⟨hub a (List.mem_cons_self _ _),
      ih (fun x hx => hub x (List.mem_cons_of_mem _ hx))⟩

theorem le_foldr_max_mem (l : List Nat) (init x : Nat) (hx : x ∈ l) :
    x ≤ l.foldr max init := by
  induction l with
  | nil => simp at hx
  | cons a as ih =>
    rcases List.mem_cons.mp hx with rfl | hx2
    · exact le_max_left _ _
    · exact (ih hx2).trans (le_max_right _ _)

theorem foldr_min_le_mem (l : List Nat) (init x : Nat) (hx : x ∈ l) :
    l.foldr min init ≤ x := by
  induction l with
  | nil => simp at hx
  | cons a as ih =>
    rcases List.mem_cons.mp hx with rfl | hx2
    · exact min_le_left _ _
    · exact (min_le_right _ _).trans (ih hx2)

theorem foldr_min_le_init (l : List Nat) (init : Nat) :
    l.foldr min init ≤ init := by
  induction l with
  | nil => simp
  | cons a as ih => exact (min_le_right _ _).trans ih

theorem le_foldr_max_init (l : List Nat) (init : Nat) :
    init ≤ l.foldr max init := by
  induction l with
  | nil => simp
  | cons a as ih => exact ih.trans (le_max_right _ _)

theorem labelRank_labelOfTick (flares : List (Int × String)) (w t : Int)
    (hC : ∀ e ∈ flares, e.2 = "C" ∨ e.2 = "M" ∨ e.2 = "X") :
    labelRank (labelOfTick flares w t) = specMaxRankInWindow flares t w := by
  have hmem : ∀ e ∈ futureFlares flares t w, e ∈ flares :=
    fun e he => ((mem_futureFlares flares t w e).mp he).1
  have hub4 : ∀ x ∈ (futureFlares flares t w).map (fun e => specIntensityRank e.2), x ≤ 4 := by
    intro x hx
    rw [List.mem_map] at hx
    obtain ⟨e, _, rfl⟩ := hx
    exact specIntensityRank_le_four e.2
  unfold labelOfTick specMaxRankInWindow
  by_cases hX : "X" ∈ (futureFlares flares t w).map Prod.snd
  · rw [if_pos hX]
    rw [List.mem_map] at hX
    obtain ⟨e, he, hcls⟩ := hX
    have h4 : (4 : Nat) ∈ (futureFlares flares t w).map (fun e => specIntensityRank e.2) :=
      List.mem_map.mpr ⟨e, he, by rw [hcls]; decide⟩
    have := le_antisymm (foldr_max_le _ 4 hub4) (le_foldr_max_mem _ 0 4 h4)
    rw [this]
    rfl
  · rw [if_neg hX]
    by_cases hM : "M" ∈ (futureFlares flares t w).map Prod.snd
    · rw [if_pos hM]
      rw [List.mem_map] at hM
      obtain ⟨e, he, hcls⟩ := hM
      have h3 : (3 : Nat) ∈ (futureFlares flares t w).map (fun e => specIntensityRank e.2) :=
        List.mem_map.mpr ⟨e, he, by rw [hcls]; decide⟩
      have hub3 : ∀ x ∈ (futureFlares flares t w).map (fun e => specIntensityRank e.2), x ≤ 3 := by
        intro x hx
        rw [List.mem_map] at hx
        obtain ⟨f, hf, rfl⟩ := hx
        rcases hC f (hmem f hf) with h | h | h
        · rw [h]; decide
        · rw [h]; decide
        · exact absurd (List.mem_map.mpr ⟨f, hf, h⟩) hX
      have := le_antisymm (foldr_max_le _ 3 hub3) (le_foldr_max_mem _ 0 3 h3)
      rw [this]
      rfl
    · rw [if_neg hM]
      by_cases hc : "C" ∈ (futureFlares flares t w).map Prod.snd
      · rw [if_pos hc]
        rw [List.mem_map] at hc
        obtain ⟨e, he, hcls⟩ := hc
        have h2 : (2 : Nat) ∈ (futureFlares flares t w).map (fun e => specIntensityRank e.2) :=
          List.mem_map.mpr ⟨e, he, by rw [hcls]; decide⟩
        have hub2 : ∀ x ∈ (futureFlares flares t w).map (fun e => specIntensityRank e.2), x ≤ 2 := by
          intro x hx
          rw [List.mem_map] at hx
          obtain ⟨f, hf, rfl⟩ := hx
          rcases hC f (hmem f hf) with h | h | h
          · rw [h]; decide
          · exact absurd (List.mem_map.mpr ⟨f, hf, h⟩) hM
          · exact absurd (List.mem_map.mpr ⟨f, hf, h⟩) hX
        have := le_antisymm (foldr_max_le _ 2 hub2) (le_foldr_max_mem _ 0 2 h2)
        rw [this]
        rfl
      · rw [if_neg hc]
        have hF : futureFlares flares t w = [] := by
          rw [List.eq_nil_iff_forall_not_mem]
          intro e he
          rcases hC e (hmem e he) with h | h | h
          · exact hc (List.mem_map.mpr ⟨e, he, h⟩)
          · exact hM (List.mem_map.mpr ⟨e, he, h⟩)
          · exact hX (List.mem_map.mpr ⟨e, he, h⟩)
        rw [hF]
        rfl

theorem labelOfTick_cases (flares : List (Int × String)) (w t : Int) :
    labelOfTick flares w t = "X" ∨ labelOfTick flares w t = "M" ∨
      labelOfTick flares w t = "C" ∨ labelOfTick flares w t = "No Flare" := by
  unfold labelOfTick
  split_ifs <;> simp

theorem labelOfTick_eq_noFlare_iff (flares : List (Int × String)) (w t : Int)
    (hC : ∀ e ∈ flares, e.2 = "C" ∨ e.2 = "M" ∨ e.2 = "X") :
    labelOfTick flares w t = "No Flare" ↔ futureFlares flares t w = [] := by
  have hmem : ∀ e ∈ futureFlares flares t w, e ∈ flares :=
    fun e he => ((mem_futureFlares flares t w e).mp he).1
  constructor
  · intro hlbl
    unfold labelOfTick at hlbl
    split_ifs at hlbl with h1 h2 h3
    · exact absurd hlbl (by decide)
    · exact absurd hlbl (by decide)
    · exact absurd hlbl (by decide)
    · rw [List.eq_nil_iff_forall_not_mem]
      intro e he
      rcases hC e (hmem e he) with h | h | h
      · exact h3 (List.mem_map.mpr ⟨e, he, h⟩)
      · exact h2 (List.mem_map.mpr ⟨e, he, h⟩)
      · exact h1 (List.mem_map.mpr ⟨e, he, h⟩)
  · intro hF
    unfold labelOfTick
    rw [hF]
    simp

/-! ## Claim C1 : the label is the windowed maximum intensity rank -/

/-- Claim C1: for every flux timestamp and configured horizon, the label that
assign_labels_to_flux computes over the loaded catalogue denotes, through the
IntensityRank reading of its class strings, exactly the maximum intensity rank
over all catalogue events whose timestamp lies in the half-open window
(t, t + horizon]: an event at t is excluded, one at t + horizon included, and
events outside the window contribute nothing. -/
theorem claim_c1_label_is_windowed_max_rank :
    ∀ (rows : List (Int × String)) (fluxIndex : List Int) (horizonHours : Nat),
      (assign_labels_to_flux fluxIndex (load_flare_catalogue rows) horizonHours).map labelRank
        = fluxIndex.map
            (fun t => specMaxRankInWindow (load_flare_catalogue rows) t (60 * (horizonHours : Int))) := by
  intro rows idx h
  unfold assign_labels_to_flux
  rw [List.map_map]
  apply List.map_congr_left
  intro t _
  exact labelRank_labelOfTick _ _ t (load_flare_catalogue_cls rows)

/-! ## Claim C3 : shape of the emitted label -/

/-- Claim C3 counterexample: the emitted labels are the strings C and
No Flare, not the integer intensity ranks 2 and 0 the claim asserts; in
particular the no-event label is the string No Flare, not 0. -/
theorem claim_c3_counterexample :
    assign_labels_to_flux [(0 : Int)] (load_flare_catalogue [((30 : Int), "C1.0")]) 24 = ["C"]
      ∧ assign_labels_to_flux [(0 : Int)] (load_flare_catalogue []) 24 = ["No Flare"]
      ∧ "C" ≠ "2" ∧ "No Flare" ≠ "0" := by
  refine ⟨by decide, by decide, by decide, by decide⟩

/-- Claim C3 amended: every emitted label is one of the strings X, M, C,
No Flare, and a tick is labelled No Flare exactly when no loaded catalogue
event falls in its look-ahead window (t, t + horizon]. -/
theorem claim_c3_amended :
    ∀ (rows : List (Int × String)) (horizonHours : Nat) (fluxIndex : List Int),
      assign_labels_to_flux fluxIndex (load_flare_catalogue rows) horizonHours
          = fluxIndex.map
              (fun t => labelOfTick (load_flare_catalogue rows) (60 * (horizonHours : Int)) t)
        ∧ (∀ lbl ∈ assign_labels_to_flux fluxIndex (load_flare_catalogue rows) horizonHours,
            lbl = "X" ∨ lbl = "M" ∨ lbl = "C" ∨ lbl = "No Flare")
        ∧ (∀ t : Int,
            labelOfTick (load_flare_catalogue rows) (60 * (horizonHours : Int)) t = "No Flare"
              ↔ futureFlares (load_flare_catalogue rows) t (60 * (horizonHours : Int)) = []) := by
  intro rows h idx
  refine ⟨rfl, ?_, ?_⟩
  · intro lbl hlbl
    unfold assign_labels_to_flux at hlbl
    rw [List.mem_map] at hlbl
    obtain ⟨t, _, rfl⟩ := hlbl
    exact labelOfTick_cases _ _ t
  · intro t
    exact labelOfTick_eq_noFlare_iff _ _ t (load_flare_catalogue_cls rows)

/-- Claim C3 amended witness: a concrete qualifying C event yields a label in
the four-string set. -/
theorem claim_c3_amended_witness :
    "C" = "X" ∨ "C" = "M" ∨ "C" = "C" ∨ "C" = "No Flare" :=
  (claim_c3_amended [((30 : Int), "C1.0")] 24 [(0 : Int)]).2.1 "C" (by decide)

/-! ## Claim C10 : A and B class events never influence labels -/

theorem load_flare_catalogue_append_nonCMX (rows extra : List (Int × String))
    (hextra : ∀ r ∈ extra,
      ¬(letterOf r.2 = "C" ∨ letterOf r.2 = "M" ∨ letterOf r.2 = "X")) :
    load_flare_catalogue (rows ++ extra) = load_flare_catalogue rows := by
  unfold load_flare_catalogue
  rw [List.map_append, List.filter_append]
  have hnil : (extra.map (fun r => (r.1, letterOf r.2))).filter
      (fun r => r.2 == "C" || r.2 == "M" || r.2 == "X") = [] := by
    rw [List.filter_eq_nil_iff]
    intro a ha
    rw [List.mem_map] at ha
    obtain ⟨r, hr, rfl⟩ := ha
    simp only [Bool.or_eq_true, beq_iff_eq]
    exact fun hcase => hextra r hr (by tauto)
  rw [hnil, List.append_nil]

/-- Claim C10: the loader keeps only C, M and X class letters, so every label
over the loaded catalogue is X, M, C or No Flare, and appending A or B class
rows to the raw catalogue leaves the loaded catalogue, hence every label,
unchanged. -/
theorem claim_c10_ab_events_never_influence_labels :
    ∀ (fluxIndex : List Int) (rows extra : List (Int × String)) (horizonHours : Nat),
      ((∀ r ∈ extra, letterOf r.2 = "A" ∨ letterOf r.2 = "B") →
          assign_labels_to_flux fluxIndex (load_flare_catalogue (rows ++ extra)) horizonHours
            = assign_labels_to_flux fluxIndex (load_flare_catalogue rows) horizonHours)
        ∧ (∀ e ∈ load_flare_catalogue rows, e.2 = "C" ∨ e.2 = "M" ∨ e.2 = "X")
        ∧ (∀ lbl ∈ assign_labels_to_flux fluxIndex (load_flare_catalogue rows) horizonHours,
            lbl = "X" ∨ lbl = "M" ∨ lbl = "C" ∨ lbl = "No Flare") := by
  intro idx rows extra h
  refine ⟨?_, load_flare_catalogue_cls rows, ?_⟩
  · intro hAB
    rw [load_flare_catalogue_append_nonCMX rows extra]
    intro r hr
    rcases hAB r hr with hA | hB
    · rw [hA]; decide
    · rw [hB]; decide
  · intro lbl hlbl
    unfold assign_labels_to_flux at hlbl
    rw [List.mem_map] at hlbl
    obtain ⟨t, _, rfl⟩ := hlbl
    exact labelOfTick_cases _ _ t

/-- Claim C10 witness: appending concrete A and B class rows leaves the labels
of a concrete run unchanged. -/
theorem claim_c10_witness :
    assign_labels_to_flux [(0 : Int)]
        (load_flare_catalogue ([((30 : Int), "C1.0")] ++ [((40 : Int), "A5.0"), ((50 : Int), "B2.0")])) 24
      = assign_labels_to_flux [(0 : Int)] (load_flare_catalogue [((30 : Int), "C1.0")]) 24 :=
  (claim_c10_ab_events_never_influence_labels [(0 : Int)] [((30 : Int), "C1.0")]
    [((40 : Int), "A5.0"), ((50 : Int), "B2.0")] 24).1 (by decide)

/-! ## Helper lemmas about the flux normalisation pipeline -/

theorem mem_bucket (l : List (Nat × ℚ)) (t : Nat) (s : Nat × ℚ) :
    s ∈ bucket l t ↔ s ∈ l ∧ s.1 / 60 = t := by
  unfold bucket
  rw [List.mem_filter]
  simp only [beq_iff_eq]

theorem bucketMean_isSome_iff (l : List (Nat × ℚ)) (t : Nat) :
    (bucketMean l t).isSome = true ↔ ∃ s ∈ l, s.1 / 60 = t := by
  unfold bucketMean
  split_ifs with h
  · simp only [Option.isSome_none, Bool.false_eq_true, false_iff]
    rintro ⟨s, hs, hst⟩
    rw [List.isEmpty_iff] at h
    have : s ∈ bucket l t := (mem_bucket l t s).mpr ⟨hs, hst⟩
    rw [h] at this
    simp at this
  · simp only [Option.isSome_some, true_iff]
    rw [List.isEmpty_iff] at h
    obtain ⟨s, hs⟩ := List.exists_mem_of_ne_nil _ h
    obtain ⟨hsl, hst⟩ := (mem_bucket l t s).mp hs
    exact ⟨s, hsl, hst⟩

theorem tickLo_le (l : List (Nat × ℚ)) (d : Nat) (x : Nat × ℚ) (hx : x ∈ l) :
    tickLo l d ≤ x.1 / 60 :=
  foldr_min_le_mem _ d _ (List.mem_map.mpr ⟨x, hx, rfl⟩)

theorem le_tickHi (l : List (Nat × ℚ)) (d : Nat) (x : Nat × ℚ) (hx : x ∈ l) :
    x.1 / 60 ≤ tickHi l d :=
  le_foldr_max_mem _ d _ (List.mem_map.mpr ⟨x, hx, rfl⟩)

theorem tickLo_le_init (l : List (Nat × ℚ)) (d : Nat) : tickLo l d ≤ d :=
  foldr_min_le_init _ d

theorem init_le_tickHi (l : List (Nat × ℚ)) (d : Nat) : d ≤ tickHi l d :=
  le_foldr_max_init _ d

theorem exists_key_sortdedup (raw : List (Nat × ℚ)) (t : Nat) :
    (∃ s ∈ sortByFst (dedupBy Prod.fst raw), s.1 / 60 = t) ↔ ∃ s ∈ raw, s.1 / 60 = t := by
  constructor
  · rintro ⟨s, hs, hst⟩
    rw [mem_sortByFst] at hs
    exact ⟨s, dedupByGo_subset Prod.fst [] raw s hs, hst⟩
  · rintro ⟨s, hs, hst⟩
    obtain ⟨y, hy, hky⟩ := dedupByGo_exists_key Prod.fst [] raw s hs (by simp)
    refine ⟨y, (mem_sortByFst _ y).mpr hy, ?_⟩
    show y.1 / 60 = t
    rw [show y.1 = s.1 from hky, hst]

theorem mem_fluxTicks_aux (L : List (Nat × ℚ)) (t : Nat) :
    t ∈ (((resample1min L).map (fun p => (p.1, p.2.map (fun v => clipLower v epsFlux)))).filterMap
          (fun p => p.2.map (fun v => (p.1, v)))).map Prod.fst
      ↔ ∃ s ∈ L, s.1 / 60 = t := by
  cases L with
  | nil => simp [resample1min]
  | cons s rest =>
    constructor
    · intro ht
      rw [List.mem_map] at ht
      obtain ⟨p, hp, hpt⟩ := ht
      rw [List.mem_filterMap] at hp
      obtain ⟨a, ha, hg⟩ := hp
      rw [List.mem_map] at ha
      obtain ⟨q, hq, rfl⟩ := ha
      simp only [resample1min, List.mem_map, List.mem_range] at hq
      obtain ⟨k, hk, rfl⟩ := hq
      rcases hbm : bucketMean (s :: rest) (tickLo (s :: rest) (s.1 / 60) + k) with _ | w
      · rw [hbm] at hg
        simp at hg
      · have hsome : (bucketMean (s :: rest) (tickLo (s :: rest) (s.1 / 60) + k)).isSome = true := by
          rw [hbm]; rfl
        obtain ⟨x, hx, hxt⟩ := (bucketMean_isSome_iff _ _).mp hsome
        rw [hbm] at hg
        rw [Option.map_some', Option.map_some'] at hg
        have hp1 : p.1 = tickLo (s :: rest) (s.1 / 60) + k := by
          rw [← Option.some_inj.mp hg]
        rw [← hpt, hp1]
        exact ⟨x, hx, hxt⟩
    · rintro ⟨x, hx, hxt⟩
      have hlo : tickLo (s :: rest) (s.1 / 60) ≤ t := by
        rw [← hxt]; exact tickLo_le _ _ x hx
      have hhi : t ≤ tickHi (s :: rest) (s.1 / 60) := by
        rw [← hxt]; exact le_tickHi _ _ x hx
      have hbne : ¬((bucket (s :: rest) t).isEmpty = true) := by
        rw [List.isEmpty_iff]
        intro hnil
        have : x ∈ bucket (s :: rest) t := (mem_bucket _ t x).mpr ⟨hx, hxt⟩
        rw [hnil] at this
        simp at this
      have hbm : bucketMean (s :: rest) t
          = some (listMean ((bucket (s :: rest) t).map Prod.snd)) := by
        unfold bucketMean
        rw [if_neg hbne]
      rw [List.mem_map]
      refine ⟨(t, clipLower (listMean ((bucket (s :: rest) t).map Prod.snd)) epsFlux), ?_, rfl⟩
      rw [List.mem_filterMap]
      refine ⟨(t, (bucketMean (s :: rest) t).map (fun v => clipLower v epsFlux)), ?_, ?_⟩
      · rw [List.mem_map]
        refine ⟨(t, bucketMean (s :: rest) t), ?_, rfl⟩
        simp only [resample1min, List.mem_map, List.mem_range]
        refine ⟨t - tickLo (s :: rest) (s.1 / 60), by omega, ?_⟩
        have hteq : tickLo (s :: rest) (s.1 / 60) + (t - tickLo (s :: rest) (s.1 / 60)) = t := by
          omega
        rw [hteq]
      · rw [hbm, Option.map_some', Option.map_some']

/-! ## Claim C4 : gap handling of the flux normaliser -/

/-- Claim C4 counterexample: raw samples at minutes 0 and 4 leave the three
consecutive ticks 1, 2, 3 missing; the pipeline emits only ticks 0 and 4, so
a gap within the claimed interpolation bound is not filled. -/
theorem claim_c4_counterexample :
    processFluxTicks [(0, 1), (240, 1)] = [0, 4]
      ∧ 1 ∉ processFluxTicks [(0, 1), (240, 1)]
      ∧ 2 ∉ processFluxTicks [(0, 1), (240, 1)]
      ∧ 3 ∉ processFluxTicks [(0, 1), (240, 1)] := by
  refine ⟨by decide, by decide, by decide, by decide⟩

/-- Claim C4 amended: the normaliser performs no interpolation at all - a grid
tick survives into the output exactly when at least one raw sample falls into
it, so every gap, of any length, is left absent tick for tick. -/
theorem claim_c4_amended : ∀ (raw : List (Nat × ℚ)) (t : Nat),
    t ∈ processFluxTicks raw ↔ ∃ s ∈ raw, s.1 / 60 = t := by
  intro raw t
  unfold processFluxTicks merge_and_transform_chunks
  rw [mem_fluxTicks_aux]
  exact exists_key_sortdedup raw t

/-! ## Claim C6 : acceptance conditions of the fixed-width parser -/

theorem classHeadOk_spec (l : List Char) (h : classHeadOk l = true) :
    ∃ c rest, l = c :: rest ∧ c ∈ abcmx := by
  cases l with
  | nil => simp [classHeadOk] at h
  | cons c rest =>
    refine ⟨c, rest, rfl, ?_⟩
    unfold classHeadOk at h
    simpa using h

/-- Claim C6 counterexample: a record whose day-of-year field reads 367 is
accepted by the parser (the source never range-checks the value against
1 to 366; date arithmetic simply rolls it into the next year), refuting the
claimed day-of-year acceptance condition. -/
theorem claim_c6_counterexample :
    parse_standard_noaa_line 2017 "3177725367   0000 1230 0000 X1.0".toList
        = some { fileYear := 2017, dayOfYear := 367, hour := 12, minute := 30,
                 cls := "X1.0".toList }
      ∧ ¬(1 ≤ 367 ∧ 367 ≤ 366) := by
  refine ⟨by decide, by decide⟩

/-- Claim C6 amended: a record is accepted only if its stripped day-of-year
field is a nonempty digit string - with no range check of the numeric value -
its peak-time token resolves to an hour at most 23 and a minute at most 59,
and the first character of the parsed classification lies in ABCMX. -/
theorem claim_c6_amended :
    ∀ (fileYear : Nat) (line : List Char) (evt : FlareEvent),
      parse_standard_noaa_line fileYear line = some evt →
        isDigitStr (pyStrip (listSlice 7 10 (replaceNBSP line))) = true
          ∧ evt.dayOfYear = listToNat (pyStrip (listSlice 7 10 (replaceNBSP line)))
          ∧ evt.hour ≤ 23 ∧ evt.minute ≤ 59
          ∧ ∃ c rest, evt.cls = c :: rest ∧ c ∈ abcmx := by
  intro fy line evt h
  unfold parse_standard_noaa_line parseNoaaCore at h
  simp only [Option.ite_none_left_eq_some] at h
  obtain ⟨hpre, hdig, hlen, hhm, hmatch⟩ := h
  rcases hsc : searchClass (List.drop 27 (replaceNBSP line)) with _ | m
  · rw [hsc] at hmatch
    exact absurd hmatch (by simp)
  · rw [hsc] at hmatch
    simp only [Option.ite_none_right_eq_some] at hmatch
    obtain ⟨h5, hevt⟩ := hmatch
    rw [Bool.and_eq_true] at h5
    obtain ⟨h5a, h5b⟩ := h5
    simp only [Bool.or_eq_true, Bool.not_eq_true'] at hdig
    push_neg at hdig
    simp only [Bool.or_eq_true, decide_eq_true_eq, not_or, not_lt] at hhm
    have hevt2 := Option.some.inj hevt
    subst hevt2
    refine ⟨?_, rfl, ?_, ?_, ?_⟩
    · simpa using hdig.2
    · exact hhm.1
    · exact hhm.2
    · exact classHeadOk_spec _ h5a

/-- Claim C6 amended witness: the acceptance conditions instantiated at a
concretely accepted record with day-of-year 065 and peak time 1230. -/
theorem claim_c6_amended_witness :
    isDigitStr (pyStrip (listSlice 7 10
        (replaceNBSP "3177725065   0000 1230 0000 X1.0".toList))) = true
      ∧ (FlareEvent.mk 2017 65 12 30 "X1.0".toList).dayOfYear
          = listToNat (pyStrip (listSlice 7 10
              (replaceNBSP "3177725065   0000 1230 0000 X1.0".toList)))
      ∧ (FlareEvent.mk 2017 65 12 30 "X1.0".toList).hour ≤ 23
      ∧ (FlareEvent.mk 2017 65 12 30 "X1.0".toList).minute ≤ 59
      ∧ ∃ c rest, (FlareEvent.mk 2017 65 12 30 "X1.0".toList).cls = c :: rest ∧ c ∈ abcmx :=
  claim_c6_amended 2017 "3177725065   0000 1230 0000 X1.0".toList
    (FlareEvent.mk 2017 65 12 30 "X1.0".toList) (by decide)

/-! ## Claim C7 : error policy of the catalogue combiner -/

theorem noaaFrame_eq_nil_iff (files : List NoaaFile) :
    noaaFrame files = [] ↔ ∀ f ∈ files, fileRows f = [] := by
  unfold noaaFrame load_noaa_all
  split_ifs with hf hd
  · rw [List.isEmpty_iff] at hf
    subst hf
    simp
  · rw [List.isEmpty_iff, List.filter_eq_nil_iff] at hd
    constructor
    · intro _ f hfmem
      have hdone := hd (fileRows f) (List.mem_map.mpr ⟨f, hfmem, rfl⟩)
      simpa [List.isEmpty_iff] using hdone
    · intro _
      rfl
  · rw [List.isEmpty_iff] at hd
    constructor
    · intro hnil
      exfalso
      rw [sortByFst_eq_nil_iff] at hnil
      rw [show dropDuplicates ((List.filter (fun d => !d.isEmpty) (files.map fileRows)).flatten)
            = dedupBy id ((List.filter (fun d => !d.isEmpty) (files.map fileRows)).flatten) from rfl,
          dedupBy_eq_nil_iff, List.flatten_eq_nil_iff] at hnil
      obtain ⟨d, hdmem⟩ := List.exists_mem_of_ne_nil _ hd
      have hdne := (List.mem_filter.mp hdmem).2
      rw [hnil d hdmem] at hdne
      simp at hdne
    · intro hall
      exfalso
      apply hd
      rw [List.filter_eq_nil_iff]
      intro d hdmem
      rw [List.mem_map] at hdmem
      obtain ⟨f, hfmem, rfl⟩ := hdmem
      rw [hall f hfmem]
      simp

/-- Claim C7: a malformed line is dropped and parsing continues; a file whose
every line is malformed parses to the empty event list rather than failing;
and the combiner reports the no-flare-data failure, instead of an empty
success, exactly when every NOAA source file parses to nothing and the HEK
frame is empty. -/
theorem claim_c7_error_policy :
    (∀ (fileYear : Nat) (l : List Char) (rest : List (List Char)),
        parse_standard_noaa_line fileYear l = none →
          parse_standard_noaa_txt ⟨some fileYear, l :: rest⟩
            = parse_standard_noaa_txt ⟨some fileYear, rest⟩)
      ∧ (∀ f : NoaaFile, (∀ y, ∀ l ∈ f.lines, parse_standard_noaa_line y l = none) →
          parse_standard_noaa_txt f = [])
      ∧ (∀ (files : List NoaaFile) (hekRows : List (Int × String)),
          combineMain files hekRows = Except.error "No flare data loaded."
            ↔ ((∀ f ∈ files, fileRows f = []) ∧ hekRows = [])) := by
  refine ⟨?_, ?_, ?_⟩
  · intro fy l rest hnone
    unfold parse_standard_noaa_txt
    simp only [List.filterMap_cons, hnone]
  · intro f hall
    unfold parse_standard_noaa_txt
    cases hy : f.yearFromName with
    | none => rfl
    | some y =>
      rw [List.filterMap_eq_nil_iff]
      exact hall y
  · intro files hekRows
    unfold combineMain
    split_ifs with hc
    · rw [Bool.and_eq_true, List.isEmpty_iff, List.isEmpty_iff] at hc
      obtain ⟨hn, hh⟩ := hc
      constructor
      · intro _
        exact ⟨(noaaFrame_eq_nil_iff files).mp hn, hh⟩
      · intro _
        rfl
    · constructor
      · intro habs
        exact absurd habs (by simp)
      · rintro ⟨hall, hh⟩
        exfalso
        apply hc
        rw [Bool.and_eq_true, List.isEmpty_iff, List.isEmpty_iff]
        exact ⟨(noaaFrame_eq_nil_iff files).mpr hall, hh⟩

/-- Claim C7 witness: the error policy instantiated at a malformed concrete
line and at a run with no catalogue data at all. -/
theorem claim_c7_witness :
    parse_standard_noaa_txt ⟨some 2017, ["bad".toList]⟩ = parse_standard_noaa_txt ⟨some 2017, []⟩
      ∧ combineMain [] [] = Except.error "No flare data loaded." := by
  refine ⟨claim_c7_error_policy.1 2017 "bad".toList [] (by decide), ?_⟩
  exact (claim_c7_error_policy.2.2 [] []).mpr ⟨by simp, rfl⟩
